import Mathlib

/-!
Verification development for the MkDocs API generator
(`src/tools/GenerateMkDocsApi.py`): a tool that renders Doxygen XML
(compound catalog plus per-compound detail records) into Markdown pages.

The embedding models an `xml.etree.ElementTree` element as `Elem`
(tag, attributes, leading text, children, tail text), and translates each
method of `DoxygenApiGenerator` into a Lean function of the same shape.
File-system interaction is modelled explicitly: the set of Doxygen detail
files is a function `String → Option Elem` from refid to parsed root, and a
run produces a list of effects (output-directory preparation and file
writes) or an error when `index.xml` is absent.
-/

/-- An XML element in the `ElementTree` style: tag, attribute list, optional
leading text, list of child elements, and optional tail text (the text that
follows the element at its parent's level). -/
inductive Elem where
  | mk (tag : String) (attrs : List (String × String)) (text : Option String)
       (children : List Elem) (tl : Option String)

/-- Element tag. -/
def Elem.tag : Elem → String
  | .mk t _ _ _ _ => t

/-- Element attribute list. -/
def Elem.attrs : Elem → List (String × String)
  | .mk _ a _ _ _ => a

/-- Leading text of the element (`elem.text` in ElementTree), `none` for absent. -/
def Elem.text : Elem → Option String
  | .mk _ _ x _ _ => x

/-- Child elements, in document order. -/
def Elem.children : Elem → List Elem
  | .mk _ _ _ c _ => c

/-- Tail text of the element (`elem.tail` in ElementTree), `none` for absent. -/
def Elem.tailText : Elem → Option String
  | .mk _ _ _ _ t => t

/-- Python truthiness of an optional string: `None` and `""` are falsy. -/
def truthyOpt : Option String → Bool
  | none => false
  | some s => s ≠ ""

/-- An optional string read as a string, `None` becoming `""`. -/
def optStr : Option String → String
  | none => ""
  | some s => s

/-- The whitespace characters stripped by Python's `str.strip()` (ASCII range). -/
def isPySpace (c : Char) : Bool :=
  c = ' ' ∨ c = '\t' ∨ c = '\n' ∨ c = '\r' ∨ c = '\x0b' ∨ c = '\x0c'

/-- Python `str.strip()`: remove leading and trailing whitespace. -/
def pyStrip (s : String) : String :=
  String.mk (((s.data.dropWhile isPySpace).reverse.dropWhile isPySpace).reverse)

/-- Python `str.rstrip()`: remove trailing whitespace. -/
def pyRstrip (s : String) : String :=
  String.mk ((s.data.reverse.dropWhile isPySpace).reverse)

/-- Python `sep.join(parts)`. -/
def pyJoin (sep : String) : List String → String
  | [] => ""
  | [s] => s
  | s :: rest => s ++ sep ++ pyJoin sep rest

/-- Concatenation of a list of strings (`"".join` without separators). -/
def strConcat : List String → String
  | [] => ""
  | s :: rest => s ++ strConcat rest

/-- Models `elem.get(key, default)`: attribute lookup with default. -/
def getAttr (e : Elem) (key deflt : String) : String :=
  match e.attrs.find? (fun p => p.1 = key) with
  | some p => p.2
  | none => deflt

/-- Models `elem.find(tag)`: first direct child with the given tag. -/
def findChild (e : Elem) (tag : String) : Option Elem :=
  e.children.find? (fun c => c.tag = tag)

/-- Models `elem.findtext(tag, default)`: text of the first matching child, the
default when no child matches, and `""` when the child has no text. -/
def findtextD (e : Elem) (tag deflt : String) : String :=
  match findChild e tag with
  | none => deflt
  | some c => optStr c.text

/-- Models `elem.findtext(tag)` with the default `None`. -/
def findtextOpt (e : Elem) (tag : String) : Option String :=
  (findChild e tag).map (fun c => optStr c.text)

/-- The ordered-list or unordered-list bullet used by `_RenderList`. -/
def lineMark (ordered : Bool) (idx : Nat) : String :=
  if ordered then toString idx ++ "." else "-"

mutual

/-- Models `_RenderInline`: leading text, then each child's rendered form followed by
its tail text, concatenated with `"".join`. -/
def renderInline : Elem → String
  | .mk _ _ txt children _ =>
    pyJoin "" ((if truthyOpt txt then [txt.getD ""] else []) ++ inlineParts children)
termination_by e => sizeOf e

/-- The `parts` contributed by the child loop of `_RenderInline`: for each
child its rendered form (the tag dispatch of `_RenderInline`) and, when
truthy, its tail text. -/
def inlineParts : List Elem → List String
  | [] => []
  | (Elem.mk ctag cattrs ctxt cchildren ctl) :: rest =>
    let child := Elem.mk ctag cattrs ctxt cchildren ctl
    let rendered :=
      if ctag = "parameterlist" ∨ ctag = "simplesect" then ""
      else if ctag = "computeroutput" ∨ ctag = "tt" then "`" ++ renderInline child ++ "`"
      else if ctag = "bold" then "**" ++ renderInline child ++ "**"
      else if ctag = "emphasis" then "*" ++ renderInline child ++ "*"
      else if ctag = "ref" then renderInline child
      else if ctag = "ulink" then
        let label := renderInline child
        let url := getAttr child "url" ""
        if url ≠ "" then "[" ++ label ++ "](" ++ url ++ ")" else label
      else if ctag = "linebreak" then "  \n"
      else if ctag = "itemizedlist" then
        "\n" ++ pyJoin "\n" (renderListItems cchildren 1 false) ++ "\n"
      else if ctag = "orderedlist" then
        "\n" ++ pyJoin "\n" (renderListItems cchildren 1 true) ++ "\n"
      else renderInline child
    (rendered :: (if truthyOpt ctl then [ctl.getD ""] else [])) ++ inlineParts rest
termination_by l => sizeOf l

/-- The line loop of `_RenderList`: one line per `listitem` child, numbered
from `idx` when ordered, each item rendered inline and stripped. -/
def renderListItems : List Elem → Nat → Bool → List String
  | [], _, _ => []
  | item :: rest, idx, ordered =>
    if item.tag = "listitem" then
      (lineMark ordered idx ++ " " ++ pyStrip (renderInline item))
        :: renderListItems rest (idx + 1) ordered
    else renderListItems rest idx ordered
termination_by l _ _ => sizeOf l

end

/-- The rendered form of one child inside `_RenderInline`'s loop (the value of
the `rendered` variable for that child). -/
def renderedOf (child : Elem) : String :=
  if child.tag = "parameterlist" ∨ child.tag = "simplesect" then ""
  else if child.tag = "computeroutput" ∨ child.tag = "tt" then "`" ++ renderInline child ++ "`"
  else if child.tag = "bold" then "**" ++ renderInline child ++ "**"
  else if child.tag = "emphasis" then "*" ++ renderInline child ++ "*"
  else if child.tag = "ref" then renderInline child
  else if child.tag = "ulink" then
    let label := renderInline child
    let url := getAttr child "url" ""
    if url ≠ "" then "[" ++ label ++ "](" ++ url ++ ")" else label
  else if child.tag = "linebreak" then "  \n"
  else if child.tag = "itemizedlist" then
    "\n" ++ pyJoin "\n" (renderListItems child.children 1 false) ++ "\n"
  else if child.tag = "orderedlist" then
    "\n" ++ pyJoin "\n" (renderListItems child.children 1 true) ++ "\n"
  else renderInline child

/-- Models `_RenderList`: one line per `listitem` child of the element. -/
def renderListE (e : Elem) (ordered : Bool) : String :=
  pyJoin "\n" (renderListItems e.children 1 ordered)

mutual

/-- Models `elem.itertext()` joined to one string: leading text, then each child's
own itertext followed by its tail. -/
def itertext : Elem → String
  | .mk _ _ txt children _ => optStr txt ++ itertextList children
termination_by e => sizeOf e

/-- The contribution of a child list to `itertext`. -/
def itertextList : List Elem → String
  | [] => ""
  | c :: rest => itertext c ++ optStr c.tailText ++ itertextList rest
termination_by l => sizeOf l

end

mutual

/-- The strict descendants of an element satisfying `p`, in document
(pre-)order; models ElementTree's `.//` path steps. -/
def descendantsWhere (p : Elem → Bool) : Elem → List Elem
  | .mk _ _ _ children _ => descendantsList p children
termination_by e => sizeOf e

/-- Descendant search over a child list. -/
def descendantsList (p : Elem → Bool) : List Elem → List Elem
  | [] => []
  | c :: rest => (if p c then [c] else []) ++ descendantsWhere p c ++ descendantsList p rest
termination_by l => sizeOf l

end

/-- Models `_RenderProgramlisting`: each `codeline` flattened to its full text
content and right-stripped, joined and right-stripped, in a `cpp` fence. -/
def renderProgramlisting (elem : Elem) : String :=
  let lines := (elem.children.filter (fun c => c.tag = "codeline")).map
    (fun codeline => pyRstrip (itertext codeline))
  let code := pyRstrip (pyJoin "\n" lines)
  "```cpp\n" ++ code ++ "\n```"

/-- The paragraph loop of `_RenderDescription`: `para` children render inline
and are kept when non-empty after stripping; `programlisting`,
`itemizedlist` and `orderedlist` children render as blocks; all other
child tags are skipped. -/
def descriptionParagraphs : List Elem → List String
  | [] => []
  | child :: rest =>
    (if child.tag = "para" then
      let text := pyStrip (renderInline child)
      if text ≠ "" then [text] else []
    else if child.tag = "programlisting" then [renderProgramlisting child]
    else if child.tag = "itemizedlist" then [renderListE child false]
    else if child.tag = "orderedlist" then [renderListE child true]
    else []) ++ descriptionParagraphs rest

/-- Models `_RenderDescription`: `""` for an absent node, otherwise the non-empty
paragraphs joined by blank lines. -/
def renderDescription : Option Elem → String
  | none => ""
  | some elem => pyJoin "\n\n" ((descriptionParagraphs elem.children).filter (fun p => p ≠ ""))

/-- Models `_WrapCard`: empty content stays empty, otherwise the content is stripped
and wrapped in the styling `div` container. -/
def wrapCard (content : String) : String :=
  if content = "" then ""
  else pyJoin "\n" ["<div class=\"snapi-api-card\" markdown=\"1\">", pyStrip content, "</div>"]

/-- The fixed section-kind → title table of `_SectionTitle`. -/
def sectionTitleTable : List (String × String) :=
  [("public-func", "Public Functions"), ("public-static-func", "Public Static Functions"),
   ("public-attrib", "Public Members"), ("public-static-attrib", "Public Static Members"),
   ("public-type", "Public Types"), ("protected-func", "Protected Functions"),
   ("protected-attrib", "Protected Members"), ("protected-type", "Protected Types"),
   ("private-func", "Private Functions"), ("private-attrib", "Private Members"),
   ("private-type", "Private Types"), ("friend", "Friends"), ("define", "Macros"),
   ("func", "Functions"), ("var", "Variables"), ("typedef", "Type Aliases"),
   ("enum", "Enumerations")]

/-- Python `str.title()` restricted to alphabetic casing: the first letter of
each maximal letter run is upper-cased, the rest lower-cased. -/
def pyTitleAux : List Char → Bool → List Char
  | [], _ => []
  | c :: rest, prevCased =>
    if c.isAlpha then
      (if prevCased then c.toLower else c.toUpper) :: pyTitleAux rest true
    else c :: pyTitleAux rest false

/-- Python `str.title()`. -/
def pyTitle (s : String) : String := String.mk (pyTitleAux s.data false)

/-- Models `_SectionTitle`: table lookup with a title-cased fallback. -/
def sectionTitle (kind : String) : String :=
  match sectionTitleTable.find? (fun p => p.1 = kind) with
  | some p => p.2
  | none => pyTitle (kind.replace "-" " ")

/-- The `values` loop of `_RenderEnum`: a bullet per `enumvalue` with a
non-empty stripped name, with `: brief` appended when the rendered brief
description is non-empty. -/
def enumValueLines : List Elem → List String
  | [] => []
  | ev :: rest =>
    let valueName := pyStrip (findtextD ev "name" "")
    let valueBrief := renderDescription (findChild ev "briefdescription")
    if valueName ≠ "" then
      (if valueBrief ≠ "" then "- `" ++ valueName ++ "`: " ++ valueBrief
       else "- `" ++ valueName ++ "`") :: enumValueLines rest
    else enumValueLines rest

/-- The `values` list of `_RenderEnum` for a member. -/
def enumValues (member : Elem) : List String :=
  enumValueLines (member.children.filter (fun c => c.tag = "enumvalue"))

/-- The heading/brief/detailed part of `_RenderEnum`'s `parts` list. -/
def enumBaseParts (member : Elem) : List String :=
  let name := pyStrip (findtextD member "name" "")
  let brief := renderDescription (findChild member "briefdescription")
  let detailed := renderDescription (findChild member "detaileddescription")
  ["### `enum " ++ name ++ "`", ""]
    ++ (if brief ≠ "" then [brief, ""] else [])
    ++ (if detailed ≠ "" then [detailed, ""] else [])

/-- The full `parts` list of `_RenderEnum`. -/
def renderEnumParts (member : Elem) : List String :=
  enumBaseParts member
    ++ (if enumValues member ≠ [] then
          ["**Values**", "", pyJoin "\n" (enumValues member), ""]
        else [])

/-- Models `_RenderEnum`: the enum card. -/
def renderEnum (member : Elem) : String :=
  wrapCard (pyJoin "\n" (renderEnumParts member))

/-- The signature selection of `_RenderMember`: `definition + argsstring` when
the args string is truthy, otherwise the definition when truthy, otherwise
the declared name. -/
def memberSignature (member : Elem) : String :=
  let defn := pyStrip (findtextD member "definition" "")
  let args := pyStrip (findtextD member "argsstring" "")
  if args ≠ "" then defn ++ args
  else if defn ≠ "" then defn
  else pyStrip (findtextD member "name" "")

/-- The formal-parameter name of a `param` element:
`findtext("declname") or findtext("defname") or ""`. -/
def paramName (param : Elem) : String :=
  let a := findtextOpt param "declname"
  let b := findtextOpt param "defname"
  if truthyOpt a then a.getD "" else if truthyOpt b then b.getD "" else ""

/-- Python dict assignment `d[key] = val` on an association list. -/
def dictInsert (d : List (String × String)) (key val : String) : List (String × String) :=
  if d.any (fun p => p.1 = key) then
    d.map (fun p => if p.1 = key then (key, val) else p)
  else d ++ [(key, val)]

/-- Python `d.get(key, default)` on an association list. -/
def dictGet (d : List (String × String)) (key deflt : String) : String :=
  match d.find? (fun p => p.1 = key) with
  | some p => p.2
  | none => deflt

/-- The elements matched by `.//parameterlist[@kind='param']/parameteritem`
under a detailed description. -/
def parameterItems (detail : Elem) : List Elem :=
  (descendantsWhere (fun d => d.tag = "parameterlist" && getAttr d "kind" "" = "param")
      detail).flatMap
    (fun pl => pl.children.filter (fun c => c.tag = "parameteritem"))

/-- The stripped names of `./parameternamelist/parametername` children of a
`parameteritem` whose text is truthy. -/
def itemNames (item : Elem) : List String :=
  ((item.children.filter (fun c => c.tag = "parameternamelist")).flatMap
      (fun nl => nl.children.filter (fun c => c.tag = "parametername"))).filterMap
    (fun n => if truthyOpt n.text then some (pyStrip (optStr n.text)) else none)

/-- The free-text `descriptions` dict built by `_ExtractParameters`. -/
def paramDescriptions (member : Elem) : List (String × String) :=
  match findChild member "detaileddescription" with
  | none => []
  | some detail =>
    (parameterItems detail).foldl
      (fun dict item =>
        let names := itemNames item
        let desc := renderDescription (findChild item "parameterdescription")
        names.foldl (fun d n => dictInsert d n desc) dict)
      []

/-- The `params` loop of `_ExtractParameters`: a `(name, description)` pair
per `param` child with a non-empty name, in declaration order. -/
def extractParamsList (descriptions : List (String × String)) : List Elem → List (String × String)
  | [] => []
  | p :: rest =>
    let name := paramName p
    if name = "" then extractParamsList descriptions rest
    else (name, dictGet descriptions name "") :: extractParamsList descriptions rest

/-- Models `_ExtractParameters`. -/
def extractParameters (member : Elem) : List (String × String) :=
  extractParamsList (paramDescriptions member)
    (member.children.filter (fun c => c.tag = "param"))

/-- Models `_ExtractReturn`: the rendered first `.//simplesect[@kind='return']` of
the detailed description, `""` when absent. -/
def extractReturn (member : Elem) : String :=
  match findChild member "detaileddescription" with
  | none => ""
  | some detail =>
    renderDescription
      ((descendantsWhere (fun d => d.tag = "simplesect" && getAttr d "kind" "" = "return")
          detail).head?)

/-- Models `_ExtractNotes`: the non-empty rendered `.//simplesect[@kind='note']`
descendants of the detailed description. -/
def extractNotes (member : Elem) : List String :=
  match findChild member "detaileddescription" with
  | none => []
  | some detail =>
    ((descendantsWhere (fun d => d.tag = "simplesect" && getAttr d "kind" "" = "note")
          detail).map (fun n => renderDescription (some n))).filter (fun t => t ≠ "")

/-- The `parts` list of `_RenderMember`. -/
def renderMemberParts (member : Elem) : List String :=
  let signature := memberSignature member
  let brief := renderDescription (findChild member "briefdescription")
  let detailed := renderDescription (findChild member "detaileddescription")
  let params := extractParameters member
  let returns := extractReturn member
  let notes := extractNotes member
  ["### `" ++ signature ++ "`", ""]
    ++ (if brief ≠ "" then [brief, ""] else [])
    ++ (if detailed ≠ "" then [detailed, ""] else [])
    ++ (if params ≠ [] then
          ["**Parameters**", ""]
            ++ params.map (fun pr => "- `" ++ pr.1 ++ "`: " ++ pr.2) ++ [""]
        else [])
    ++ (if returns ≠ "" then ["**Returns:** " ++ returns, ""] else [])
    ++ (if notes ≠ [] then ["**Notes**", ""] ++ notes.map (fun n => "- " ++ n) ++ [""] else [])

/-- Models `_RenderMember`: the generic member card. -/
def renderMember (member : Elem) : String :=
  wrapCard (pyStrip (pyJoin "\n" (renderMemberParts member)))

/-- The dispatch of `_RenderMembers`: `enum` members render through
`_RenderEnum`, every other kind through `_RenderMember`. -/
def memberLine (member : Elem) : String :=
  if getAttr member "kind" "" = "enum" then renderEnum member else renderMember member

/-- Models `_RenderMembers`: the non-empty member cards joined by newlines. -/
def renderMembers (members : List Elem) : String :=
  pyJoin "\n" ((members.map memberLine).filter (fun line => line ≠ ""))

/-- Models `_RenderSections`: a `##` section per `sectiondef` with non-empty rendered
members, joined and stripped. -/
def renderSections (compounddef : Elem) : String :=
  let output := (compounddef.children.filter (fun c => c.tag = "sectiondef")).flatMap
    (fun sec =>
      let kind := getAttr sec "kind" ""
      let title := sectionTitle kind
      let rendered := renderMembers (sec.children.filter (fun c => c.tag = "memberdef"))
      if rendered ≠ "" then ["## " ++ title, "", rendered, ""] else [])
  pyStrip (pyJoin "\n" output)

/-- The lines of `_RenderInner` for one `(tag, label)` pair. -/
def innerLines (compounddef : Elem) (tag label : String) : List String :=
  (compounddef.children.filter (fun c => c.tag = tag)).filterMap (fun inner =>
    let name := if truthyOpt inner.text then pyStrip (optStr inner.text) else ""
    if name = "" then none else some ("- **" ++ label ++ ":** " ++ name))

/-- Models `_RenderInner`: nested namespaces then nested classes. -/
def renderInner (compounddef : Elem) : String :=
  pyJoin "\n" (innerLines compounddef "innernamespace" "Namespace"
    ++ innerLines compounddef "innerclass" "Type")

/-- One catalog entry: identity key, kind, display name. -/
structure Compound where
  refid : String
  kind : String
  name : String
deriving DecidableEq, Repr

/-- The `parts` list of `_RenderCompound` for a located `compounddef`. -/
def renderCompoundParts (compound : Compound) (compounddef : Elem) : List String :=
  let title := if compound.kind = "file" then "File `" ++ compound.name ++ "`" else compound.name
  let brief := renderDescription (findChild compounddef "briefdescription")
  let detailed := renderDescription (findChild compounddef "detaileddescription")
  let contents := renderInner compounddef
  let members := renderSections compounddef
  ["# " ++ title, ""]
    ++ (if brief ≠ "" then [brief, ""] else [])
    ++ (if detailed ≠ "" then [detailed, ""] else [])
    ++ (if contents ≠ "" then ["## Contents", "", contents, ""] else [])
    ++ (if members ≠ "" then [members] else [])

/-- Models `_RenderCompound`, with the detail record given as `none` when the
compound's XML file does not exist. -/
def renderCompound (compound : Compound) (detailRoot : Option Elem) : String :=
  match detailRoot with
  | none =>
    "# " ++ compound.name ++ "\n\n_Unable to locate XML for " ++ compound.refid ++ "._\n"
  | some root =>
    match findChild root "compounddef" with
    | none => "# " ++ compound.name ++ "\n\n_Empty compound definition._\n"
    | some compounddef =>
      pyStrip (pyJoin "\n" (renderCompoundParts compound compounddef)) ++ "\n"

/-- The display name chosen by `_LoadIndex` for one index entry. -/
def compoundName (el : Elem) (refid : String) : String :=
  match findChild el "name" with
  | some ne => if truthyOpt ne.text then pyStrip (optStr ne.text) else refid
  | none => refid

/-- The entry loop of `_LoadIndex`: entries with an empty `refid` are skipped,
the rest become `Compound`s in document order. -/
def loadIndexAux : List Elem → List Compound
  | [] => []
  | el :: rest =>
    let kind := getAttr el "kind" ""
    let refid := getAttr el "refid" ""
    let name := compoundName el refid
    if refid = "" then loadIndexAux rest
    else { refid := refid, kind := kind, name := name } :: loadIndexAux rest

/-- Models `_LoadIndex` applied to the parsed root of `index.xml`. -/
def loadIndex (root : Elem) : List Compound :=
  loadIndexAux (root.children.filter (fun c => c.tag = "compound"))

/-- Stable insertion of a compound after all entries whose name is `≤` its
name; `sortByName` below is then the stable sort by display name, which is
extensionally the result of Python's stable `sorted(key=lambda c: c.name)`. -/
def insertByName : List Compound → Compound → List Compound
  | [], c => [c]
  | d :: rest, c =>
    if d.name ≤ c.name then d :: insertByName rest c else c :: d :: rest

/-- Stable sort of compounds by display name. -/
def sortByName (l : List Compound) : List Compound := l.foldl insertByName []

/-- Models `render_list` in `_WriteIndexes`: a Markdown link bullet per compound, or
the `_None_` placeholder for an empty partition. -/
def renderLinkList (items : List Compound) : String :=
  let lines := items.map (fun item => "- [" ++ item.name ++ "](" ++ item.refid ++ ".md)")
  if lines ≠ [] then pyJoin "\n" lines else "_None_"

/-- The dedented overview page of `_WriteIndexes` with the partition counts
interpolated. -/
def indexContent (numNamespaces numTypes numFiles : Nat) : String :=
  "# API Reference\n\nThis section is generated from Doxygen XML output and rendered inside MkDocs.\n\n- **Namespaces:** "
    ++ toString numNamespaces
    ++ "\n- **Types:** " ++ toString numTypes
    ++ "\n- **Files:** " ++ toString numFiles
    ++ "\n\n## Quick Index\n\n- [Namespaces](namespaces.md)\n- [Types](types.md)\n- [Files](files.md)\n"

/-- The type-like compound kinds partitioned into `types.md`. -/
def typeKinds : List String := ["class", "struct", "union", "concept"]

/-- Models `_WriteIndexes`: the four index files, as `(filename, content)` pairs in
write order. -/
def writeIndexes (compounds : List Compound) : List (String × String) :=
  let namespaces := sortByName (compounds.filter (fun c => c.kind = "namespace"))
  let types := sortByName (compounds.filter (fun c => typeKinds.contains c.kind))
  let files := sortByName (compounds.filter (fun c => c.kind = "file"))
  [("index.md", indexContent namespaces.length types.length files.length),
   ("namespaces.md", "# Namespaces\n\n" ++ renderLinkList namespaces ++ "\n"),
   ("types.md", "# Types\n\n" ++ renderLinkList types ++ "\n"),
   ("files.md", "# Files\n\n" ++ renderLinkList files ++ "\n")]

/-- The compound kinds that get a dedicated page in `_WriteCompoundPages`. -/
def renderableKinds : List String := ["class", "struct", "namespace", "file", "union", "concept"]

/-- Models `_WriteCompoundPages`: one `(filename, content)` pair per renderable
compound, in catalog order; `details` maps a refid to the parsed root of
its detail file, `none` when that file does not exist. -/
def writeCompoundPages (compounds : List Compound) (details : String → Option Elem) :
    List (String × String) :=
  compounds.filterMap (fun c =>
    if renderableKinds.contains c.kind then
      some (c.refid ++ ".md", renderCompound c (details c.refid))
    else none)

/-- Every file written by a run with a present index, in write order. -/
def runFiles (root : Elem) (details : String → Option Elem) : List (String × String) :=
  writeCompoundPages (loadIndex root) details ++ writeIndexes (loadIndex root)

/-- An observable side effect of a run: clearing/recreating the output
directory, or writing one output file. -/
inductive Effect where
  | prepareOutput
  | write (path content : String)
deriving DecidableEq

/-- Models `Run`: fails before any effect when `index.xml` is absent (`indexRoot =
none`); otherwise prepares the output directory and writes the compound
pages followed by the index files. -/
def Run (indexRoot : Option Elem) (details : String → Option Elem) :
    Except String (List Effect) :=
  match indexRoot with
  | none => Except.error "Missing Doxygen index"
  | some root =>
    Except.ok (Effect.prepareOutput ::
      (runFiles root details).map (fun pr => Effect.write pr.1 pr.2))

/-- Checks that a character list ends with exactly one `'\n'`: scrutinised in
reverse, the first character is a newline and the second (when present) is
not. -/
def endsOneNewlineL : List Char → Bool
  | [] => false
  | c :: rest => c == '\n' && rest.head? != some '\n'

/-- The output-file invariant: the content ends with exactly one trailing
newline character. -/
def endsOneNewlineB (s : String) : Bool :=
  endsOneNewlineL s.data.reverse

/-- Substring test on character lists. -/
def listContainsSub (h n : List Char) : Bool :=
  (List.range (h.length + 1)).any (fun i => (h.drop i).take n.length = n)

/-- Substring test on strings. -/
def strContains (h n : String) : Bool :=
  listContainsSub h.data n.data

/-- The raw tag kinds handled by the block loop of `_RenderDescription`. -/
def blockTags : List String := ["para", "programlisting", "itemizedlist", "orderedlist"]

/-- The tag kinds the inline dispatch of `_RenderInline` recognises. -/
def inlineTags : List String :=
  ["parameterlist", "simplesect", "computeroutput", "tt", "bold", "emphasis",
   "ref", "ulink", "linebreak", "itemizedlist", "orderedlist"]

/-- A member with an args string and a name but no definition. -/
def c2member : Elem :=
  .mk "memberdef" [("kind", "function")] none
    [.mk "argsstring" [] (some "(int x)") [] none,
     .mk "name" [] (some "Foo") [] none] none

/-- A member with no metadata children at all. -/
def c2empty : Elem := .mk "memberdef" [] none [] none

/-- A member whose only metadata is a declared name. -/
def c2nameOnly : Elem :=
  .mk "memberdef" [] none [.mk "name" [] (some "Bar") [] none] none

/-- An enumeration with one named, unannotated enumerator and one enumerator
without a name element. -/
def c5enum : Elem :=
  .mk "memberdef" [("kind", "enum")] none
    [.mk "name" [] (some "Color") [] none,
     .mk "enumvalue" [] none [.mk "name" [] (some "A") [] none] none,
     .mk "enumvalue" [] none [] none] none

/-- An enumeration with no enumerators. -/
def c5plainEnum : Elem :=
  .mk "memberdef" [("kind", "enum")] none
    [.mk "name" [] (some "Empty") [] none] none

/-- An inline element of an unrecognised kind carrying inner text. -/
def c6weird : Elem := .mk "weird" [] (some "hello") [] none

/-- A paragraph containing only the unrecognised inline element. -/
def c6para : Elem := .mk "para" [] none [.mk "weird" [] (some "hello") [] none] none

/-- A member of an unrecognised kind with no metadata. -/
def c6member : Elem := .mk "memberdef" [("kind", "frobnicate")] none [] none

/-- The formal parameter element of the witness member below. -/
def c7param : Elem :=
  .mk "param" [] none [.mk "declname" [] (some "x") [] none] none

/-- A member with one named formal parameter and no free-text annotations. -/
def c7member : Elem :=
  .mk "memberdef" [("kind", "function")] none
    [.mk "name" [] (some "F") [] none, c7param] none

/-- A catalog entry element for a class compound `c1` named `Alpha`. -/
def c8entryAlpha : Elem :=
  .mk "compound" [("refid", "c1"), ("kind", "class")] none
    [.mk "name" [] (some "Alpha") [] none] none

/-- A catalog entry element for a namespace compound `n1` named `Widgets`. -/
def c8entryWidgets : Elem :=
  .mk "compound" [("refid", "n1"), ("kind", "namespace")] none
    [.mk "name" [] (some "Widgets") [] none] none

/-- A catalog entry element with an empty refid, skipped by `_LoadIndex`. -/
def c10entryEmptyRefid : Elem :=
  .mk "compound" [("refid", ""), ("kind", "class")] none
    [.mk "name" [] (some "Ghost") [] none] none

/-- A catalog entry element `c2x` whose name element is absent. -/
def c10entryNameless : Elem :=
  .mk "compound" [("refid", "c2x"), ("kind", "struct")] none [] none

/-- A parsed `index.xml` root listing the four entries above. -/
def c8root : Elem :=
  .mk "doxygenindex" [] none
    [c8entryAlpha, c8entryWidgets, c10entryEmptyRefid, c10entryNameless] none

/-- A detail-record map with no detail file present for any refid. -/
def noDetails : String → Option Elem := fun _ => none

theorem strConcat_append (a b : List String) :
    strConcat (a ++ b) = strConcat a ++ strConcat b := by
  induction a with
  | nil => simp [strConcat]
  | cons s rest ih => simp [strConcat, ih, String.append_assoc]

theorem pyJoin_empty_sep (l : List String) : pyJoin "" l = strConcat l := by
  induction l with
  | nil => rfl
  | cons s rest ih =>
    cases rest with
    | nil => simp [pyJoin, strConcat]
    | cons r rest2 => simp [pyJoin, strConcat] at ih ⊢; simp [ih, String.append_assoc]

theorem strConcat_truthy (t : Option String) :
    strConcat (if truthyOpt t then [t.getD ""] else []) = optStr t := by
  cases t with
  | none => rfl
  | some s =>
    by_cases hs : s = "" <;> simp [truthyOpt, optStr, strConcat, hs]

theorem inlineParts_cons (c : Elem) (rest : List Elem) :
    inlineParts (c :: rest) =
      (renderedOf c :: (if truthyOpt c.tailText then [c.tailText.getD ""] else []))
        ++ inlineParts rest := by
  cases c with
  | mk t a x ch tl =>
    simp only [inlineParts, renderedOf, Elem.tag, Elem.children, Elem.tailText]

theorem strConcat_inlineParts (l : List Elem) :
    strConcat (inlineParts l)
      = strConcat (l.map (fun c => renderedOf c ++ optStr c.tailText)) := by
  induction l with
  | nil => simp [inlineParts]
  | cons c rest ih =>
    rw [inlineParts_cons, List.cons_append]
    simp only [strConcat]
    rw [strConcat_append, strConcat_truthy, ih]
    simp [strConcat, String.append_assoc]

/-- C1: `_RenderInline` returns the node's leading text followed, for each
child inline element in document order, by that child's rendered form and
then that child's tail text, concatenated left to right with nothing
reordered or dropped. -/
theorem C1_render_inline_order (e : Elem) :
    renderInline e
      = optStr e.text
          ++ strConcat (e.children.map (fun c => renderedOf c ++ optStr c.tailText)) := by
  cases e with
  | mk t a x ch tl =>
    simp only [renderInline, Elem.text, Elem.children]
    rw [pyJoin_empty_sep, strConcat_append, strConcat_truthy, strConcat_inlineParts]

/-- C3: when the top-level catalog descriptor `index.xml` is absent the run
fails with the missing-index error, and no effect — neither output-directory
preparation nor a file write — is produced. -/
theorem C3_missing_index_aborts (details : String → Option Elem) :
    Run none details = Except.error "Missing Doxygen index"
      ∧ ∀ effects : List Effect, Run none details ≠ Except.ok effects := by
  constructor
  · rfl
  · intro effects h
    simp [Run] at h

theorem data_append' (s t : String) : (s ++ t).data = s.data ++ t.data := by simp

theorem eq_empty_of_data_nil (t : String) (h : t.data = []) : t = "" :=
  congrArg String.mk h

theorem append_ne_empty_right (s t : String) (h : t ≠ "") : s ++ t ≠ "" := by
  intro he
  have hd : s.data ++ t.data = [] := by
    have := congrArg String.data he
    rwa [data_append'] at this
  exact h (eq_empty_of_data_nil t (List.append_eq_nil.mp hd).2)

theorem memberParts_head (member : Elem) :
    (renderMemberParts member).head? = some ("### `" ++ memberSignature member ++ "`") := by
  simp [renderMemberParts]

/-- C2 counterexample: for a member with a non-empty args string, an empty
definition and declared name `Foo`, the code renders the signature as the
bare args string `(int x)` rather than falling back to the name `Foo`; and
for a member with no metadata at all the signature is empty. -/
theorem C2_counterexample :
    memberSignature c2member = "(int x)"
      ∧ pyStrip (findtextD c2member "definition" "") = ""
      ∧ pyStrip (findtextD c2member "name" "") = "Foo"
      ∧ memberSignature c2member ≠ "Foo"
      ∧ memberSignature c2empty = "" := by
  decide

/-- C2 (amended): the heading signature is `definition ++ args` whenever the
stripped args string is non-empty (even when the definition is empty);
otherwise the definition when non-empty; otherwise the bare declared name;
and it is non-empty whenever at least one of the stripped name, definition
or args string is non-empty. -/
theorem C2_signature_fallback (member : Elem)
    (h : pyStrip (findtextD member "name" "") ≠ ""
        ∨ pyStrip (findtextD member "definition" "") ≠ ""
        ∨ pyStrip (findtextD member "argsstring" "") ≠ "") :
    memberSignature member ≠ ""
      ∧ (renderMemberParts member).head? = some ("### `" ++ memberSignature member ++ "`")
      ∧ (pyStrip (findtextD member "argsstring" "") ≠ "" →
          memberSignature member
            = pyStrip (findtextD member "definition" "")
                ++ pyStrip (findtextD member "argsstring" ""))
      ∧ (pyStrip (findtextD member "argsstring" "") = "" →
          pyStrip (findtextD member "definition" "") ≠ "" →
          memberSignature member = pyStrip (findtextD member "definition" ""))
      ∧ (pyStrip (findtextD member "argsstring" "") = "" →
          pyStrip (findtextD member "definition" "") = "" →
          memberSignature member = pyStrip (findtextD member "name" "")) := by
  refine ⟨?_, memberParts_head member, ?_, ?_, ?_⟩
  · by_cases ha : pyStrip (findtextD member "argsstring" "") = ""
    · by_cases hd : pyStrip (findtextD member "definition" "") = ""
      · have hn : pyStrip (findtextD member "name" "") ≠ "" := by
          rcases h with h | h | h
          · exact h
          · exact (h hd).elim
          · exact (h ha).elim
        simp [memberSignature, ha, hd, hn]
      · simp [memberSignature, ha, hd]
    · have hs : memberSignature member
          = pyStrip (findtextD member "definition" "") ++ pyStrip (findtextD member "argsstring" "") := by
        simp [memberSignature, ha]
      rw [hs]
      exact append_ne_empty_right _ _ ha
  · intro ha; simp [memberSignature, ha]
  · intro ha hd; simp [memberSignature, ha, hd]
  · intro ha hd; simp [memberSignature, ha, hd]

/-- C2 witness: the amended fallback applied to a member whose only metadata
is a declared name. -/
theorem C2_signature_fallback_witness :
    pyStrip (findtextD c2nameOnly "name" "") ≠ "" ∧ memberSignature c2nameOnly ≠ "" :=
  ⟨by decide, (C2_signature_fallback c2nameOnly (Or.inl (by decide))).1⟩

theorem enumValueLines_eq (l : List Elem) :
    enumValueLines l
      = l.filterMap (fun ev =>
          if pyStrip (findtextD ev "name" "") = "" then none
          else if renderDescription (findChild ev "briefdescription") ≠ "" then
            some ("- `" ++ pyStrip (findtextD ev "name" "") ++ "`: "
              ++ renderDescription (findChild ev "briefdescription"))
          else some ("- `" ++ pyStrip (findtextD ev "name" "") ++ "`")) := by
  induction l with
  | nil => rfl
  | cons ev rest ih =>
    simp only [enumValueLines, List.filterMap_cons]
    by_cases hn : pyStrip (findtextD ev "name" "") = ""
    · simp [hn, ih]
    · by_cases hb : renderDescription (findChild ev "briefdescription") = ""
      · simp [hn, hb, ih]
      · simp [hn, hb, ih]

/-- C5 counterexample: an enumeration with one named enumerator that carries
no annotation and a second enumerator without a name. Although no
enumerator carries a brief description, the rendered output still contains
a Values block (refuting the claimed omission condition), and the block
holds one bullet for two enumerators (the unnamed one is dropped). -/
theorem C5_counterexample :
    (∀ ev ∈ c5enum.children.filter (fun c => c.tag = "enumvalue"),
        renderDescription (findChild ev "briefdescription") = "")
      ∧ (c5enum.children.filter (fun c => c.tag = "enumvalue")).length = 2
      ∧ enumValues c5enum = ["- `A`"]
      ∧ strContains (renderEnum c5enum) "**Values**" = true := by
  decide

/-- C5 (amended): the enum heading is of the form `enum <name>`; the Values
block holds one bullet per enumerator with a non-empty stripped name, in
order, appending `: <description>` exactly when that enumerator's brief
description renders non-empty; and the block is present exactly when at
least one enumerator has a non-empty name (it is omitted when there is no
named enumerator, not when there is no annotation). -/
theorem C5_enum_rendering (member : Elem) :
    enumValues member
      = (member.children.filter (fun c => c.tag = "enumvalue")).filterMap
          (fun ev =>
            if pyStrip (findtextD ev "name" "") = "" then none
            else if renderDescription (findChild ev "briefdescription") ≠ "" then
              some ("- `" ++ pyStrip (findtextD ev "name" "") ++ "`: "
                ++ renderDescription (findChild ev "briefdescription"))
            else some ("- `" ++ pyStrip (findtextD ev "name" "") ++ "`"))
      ∧ (renderEnumParts member).head?
          = some ("### `enum " ++ pyStrip (findtextD member "name" "") ++ "`")
      ∧ (enumValues member = [] → renderEnumParts member = enumBaseParts member)
      ∧ (enumValues member ≠ [] →
          renderEnumParts member
            = enumBaseParts member
                ++ ["**Values**", "", pyJoin "\n" (enumValues member), ""]) := by
  refine ⟨enumValueLines_eq _, ?_, ?_, ?_⟩
  · simp [renderEnumParts, enumBaseParts]
  · intro hv; simp [renderEnumParts, hv]
  · intro hv; simp [renderEnumParts, hv]

/-- C5 witness: the amended rendering applied to an enumeration with no
enumerators, whose Values block is omitted. -/
theorem C5_enum_rendering_witness :
    enumValues c5plainEnum = []
      ∧ renderEnumParts c5plainEnum = enumBaseParts c5plainEnum :=
  ⟨by decide, (C5_enum_rendering c5plainEnum).2.2.1 (by decide)⟩

/-- C6 counterexample: an inline element with an unrecognised tag renders its
inner text (`hello`) rather than contributing nothing, and a member with an
unrecognised kind still renders a non-empty card through the generic member
renderer. -/
theorem C6_counterexample :
    inlineTags.contains c6weird.tag = false
      ∧ renderInline c6para = "hello"
      ∧ getAttr c6member "kind" "" = "frobnicate"
      ∧ memberLine c6member ≠ "" := by
  refine ⟨by decide, ?_, by decide, by decide⟩
  simp [renderInline, inlineParts, c6para, truthyOpt, pyJoin]

/-- C6 (amended): only unrecognised block kinds are silently dropped; an
unrecognised inline kind renders as its inner content (without markup), and
every non-enum member kind — recognised or not — renders through the
generic member renderer rather than being dropped. -/
theorem C6_unrecognized_kinds :
    (∀ (pre post : List Elem) (c : Elem), blockTags.contains c.tag = false →
        descriptionParagraphs (pre ++ c :: post) = descriptionParagraphs (pre ++ post))
      ∧ (∀ child : Elem, inlineTags.contains child.tag = false →
          renderedOf child = renderInline child)
      ∧ (∀ m : Elem, getAttr m "kind" "" ≠ "enum" → memberLine m = renderMember m) := by
  refine ⟨?_, ?_, ?_⟩
  · intro pre post c hb
    have h1 : c.tag ≠ "para" := by intro h; rw [h] at hb; simp [blockTags] at hb
    have h2 : c.tag ≠ "programlisting" := by intro h; rw [h] at hb; simp [blockTags] at hb
    have h3 : c.tag ≠ "itemizedlist" := by intro h; rw [h] at hb; simp [blockTags] at hb
    have h4 : c.tag ≠ "orderedlist" := by intro h; rw [h] at hb; simp [blockTags] at hb
    induction pre with
    | nil => simp [descriptionParagraphs, h1, h2, h3, h4]
    | cons p rest ih =>
      simp only [List.cons_append, descriptionParagraphs, List.append_eq]
      rw [ih]
  · intro child h
    have h1 : child.tag ≠ "parameterlist" := by intro hx; rw [hx] at h; simp [inlineTags] at h
    have h2 : child.tag ≠ "simplesect" := by intro hx; rw [hx] at h; simp [inlineTags] at h
    have h3 : child.tag ≠ "computeroutput" := by intro hx; rw [hx] at h; simp [inlineTags] at h
    have h4 : child.tag ≠ "tt" := by intro hx; rw [hx] at h; simp [inlineTags] at h
    have h5 : child.tag ≠ "bold" := by intro hx; rw [hx] at h; simp [inlineTags] at h
    have h6 : child.tag ≠ "emphasis" := by intro hx; rw [hx] at h; simp [inlineTags] at h
    have h7 : child.tag ≠ "ref" := by intro hx; rw [hx] at h; simp [inlineTags] at h
    have h8 : child.tag ≠ "ulink" := by intro hx; rw [hx] at h; simp [inlineTags] at h
    have h9 : child.tag ≠ "linebreak" := by intro hx; rw [hx] at h; simp [inlineTags] at h
    have h10 : child.tag ≠ "itemizedlist" := by intro hx; rw [hx] at h; simp [inlineTags] at h
    have h11 : child.tag ≠ "orderedlist" := by intro hx; rw [hx] at h; simp [inlineTags] at h
    simp [renderedOf, h1, h2, h3, h4, h5, h6, h7, h8, h9, h10, h11]
  · intro m hm
    simp [memberLine, hm]

/-- C6 witness: the amended behaviour at concrete unrecognised inputs. -/
theorem C6_unrecognized_kinds_witness :
    descriptionParagraphs [c6weird] = descriptionParagraphs []
      ∧ renderedOf c6weird = renderInline c6weird
      ∧ memberLine c6member = renderMember c6member :=
  ⟨C6_unrecognized_kinds.1 [] [] c6weird (by decide),
   C6_unrecognized_kinds.2.1 c6weird (by decide),
   C6_unrecognized_kinds.2.2 c6member (by decide)⟩

theorem extractParamsList_eq (d : List (String × String)) (l : List Elem) :
    extractParamsList d l
      = l.filterMap (fun p =>
          if paramName p = "" then none
          else some (paramName p, dictGet d (paramName p) "")) := by
  induction l with
  | nil => rfl
  | cons p rest ih =>
    simp only [extractParamsList, List.filterMap_cons]
    by_cases hn : paramName p = ""
    · simp [hn, ih]
    · simp [hn, ih]

/-- C7: the extracted parameter list holds exactly one entry per formal
`param` child that has a name, in declaration order, pairing the name with
the free-text description looked up by that name (empty when unmatched);
a named parameter is never omitted, and each extracted pair contributes its
bullet line to the member's parts. -/
theorem C7_parameters (member : Elem) :
    extractParameters member
      = (member.children.filter (fun c => c.tag = "param")).filterMap
          (fun p =>
            if paramName p = "" then none
            else some (paramName p, dictGet (paramDescriptions member) (paramName p) ""))
      ∧ (∀ p ∈ member.children.filter (fun c => c.tag = "param"), paramName p ≠ "" →
          (paramName p, dictGet (paramDescriptions member) (paramName p) "")
            ∈ extractParameters member)
      ∧ (∀ pr ∈ extractParameters member,
          ("- `" ++ pr.1 ++ "`: " ++ pr.2) ∈ renderMemberParts member) := by
  have he : extractParameters member
      = (member.children.filter (fun c => c.tag = "param")).filterMap
          (fun p =>
            if paramName p = "" then none
            else some (paramName p, dictGet (paramDescriptions member) (paramName p) "")) := by
    unfold extractParameters
    exact extractParamsList_eq _ _
  refine ⟨he, ?_, ?_⟩
  · intro p hp hn
    rw [he]
    exact List.mem_filterMap.mpr ⟨p, hp, by simp [hn]⟩
  · intro pr hpr
    have hne : extractParameters member ≠ [] := List.ne_nil_of_mem hpr
    have hm : ("- `" ++ pr.1 ++ "`: " ++ pr.2)
        ∈ (extractParameters member).map (fun q => "- `" ++ q.1 ++ "`: " ++ q.2) :=
      List.mem_map.mpr ⟨pr, hpr, rfl⟩
    simp only [renderMemberParts, hne, if_true, ne_eq, not_false_iff, if_pos, List.mem_append]
    simp only [List.mem_append] at hm ⊢
    tauto

/-- C7 witness: a member with one named formal parameter and no annotation
still lists that parameter, with an empty description. -/
theorem C7_parameters_witness :
    ("x", "") ∈ extractParameters c7member
      ∧ ("- `x`: ") ∈ renderMemberParts c7member := by
  have h1 : ("x", "") ∈ extractParameters c7member :=
    (C7_parameters c7member).2.1 c7param
      (by simp [c7member, c7param, Elem.children, Elem.tag, List.filter]) (by decide)
  exact ⟨h1, (C7_parameters c7member).2.2 ("x", "") h1⟩

theorem head?_dropWhile_false (p : Char → Bool) :
    ∀ (l : List Char) (c : Char), (l.dropWhile p).head? = some c → p c = false := by
  intro l
  induction l with
  | nil => intro c h; simp [List.dropWhile] at h
  | cons a rest ih =>
    intro c h
    by_cases ha : p a
    · rw [List.dropWhile_cons, if_pos ha] at h
      exact ih c h
    · rw [List.dropWhile_cons, if_neg ha] at h
      simp at h
      rw [← h]
      simpa using ha

theorem pyStrip_getLast?_false (s : String) (c : Char)
    (h : (pyStrip s).data.getLast? = some c) : isPySpace c = false := by
  have hd : (pyStrip s).data
      = ((s.data.dropWhile isPySpace).reverse.dropWhile isPySpace).reverse := rfl
  rw [hd, List.getLast?_reverse] at h
  exact head?_dropWhile_false isPySpace _ c h

theorem pyStrip_getLast?_ne_newline (s : String) :
    (pyStrip s).data.getLast? ≠ some '\n' := by
  intro h
  have := pyStrip_getLast?_false s '\n' h
  simp [isPySpace] at this

theorem endsOne_concat_newline (s : String) (h : s.data.getLast? ≠ some '\n') :
    endsOneNewlineB (s ++ "\n") = true := by
  unfold endsOneNewlineB
  have hnl : ("\n" : String).data = ['\n'] := rfl
  have hd : (s ++ "\n").data.reverse = '\n' :: s.data.reverse := by
    rw [data_append', hnl, List.reverse_append]
    rfl
  rw [hd]
  simp [endsOneNewlineL, List.head?_reverse, bne_iff_ne]
  exact h

theorem endsOne_append_keep (s t : String) (h : endsOneNewlineB t = true)
    (h2 : 2 ≤ t.data.length) : endsOneNewlineB (s ++ t) = true := by
  unfold endsOneNewlineB at h ⊢
  cases hr : t.data.reverse with
  | nil =>
    rw [hr] at h
    simp [endsOneNewlineL] at h
  | cons c rest' =>
    cases rest' with
    | nil =>
      have hlen := congrArg List.length hr
      rw [List.length_reverse] at hlen
      simp only [List.length_cons, List.length_nil] at hlen
      omega
    | cons d rest =>
      rw [hr] at h
      have hd : (s ++ t).data.reverse = c :: d :: (rest ++ s.data.reverse) := by
        rw [data_append', List.reverse_append, hr]
        rfl
      rw [hd]
      simp [endsOneNewlineL] at h ⊢
      exact h

theorem getLast?_append_some (l m : List Char) (c : Char) (hm : m.getLast? = some c) :
    (l ++ m).getLast? = some c := by
  rw [List.getLast?_append, hm]
  rfl

theorem pyJoin_data_getLast? (sep : String) (lines : List String) (c : Char)
    (h : ∀ x ∈ lines, x.data.getLast? = some c) (hne : lines ≠ []) :
    (pyJoin sep lines).data.getLast? = some c := by
  induction lines with
  | nil => exact absurd rfl hne
  | cons s rest ih =>
    cases rest with
    | nil => simpa [pyJoin] using h s (by simp)
    | cons r rest2 =>
      have hr : (pyJoin sep (r :: rest2)).data.getLast? = some c :=
        ih (fun x hx => h x (List.mem_cons_of_mem s hx)) (by simp)
      show ((s ++ sep) ++ pyJoin sep (r :: rest2)).data.getLast? = some c
      rw [data_append']
      exact getLast?_append_some _ _ c hr

theorem linkLine_last (name refid : String) :
    ("- [" ++ name ++ "](" ++ refid ++ ".md)").data.getLast? = some ')' := by
  rw [data_append']
  exact getLast?_append_some _ _ ')' (by decide)

theorem renderLinkList_last (items : List Compound) :
    (renderLinkList items).data.getLast? = some ')'
      ∨ (renderLinkList items).data.getLast? = some '_' := by
  unfold renderLinkList
  cases items with
  | nil => right; decide
  | cons i rest =>
    left
    have hne : (i :: rest).map
        (fun item => "- [" ++ item.name ++ "](" ++ item.refid ++ ".md)") ≠ [] := by simp
    simp only [hne, if_pos]
    apply pyJoin_data_getLast? "\n" _ ')' _ hne
    intro x hx
    obtain ⟨item, _, rfl⟩ := List.mem_map.mp hx
    exact linkLine_last item.name item.refid

theorem header_list_endsOne (hdr : String) (items : List Compound) :
    endsOneNewlineB ((hdr ++ renderLinkList items) ++ "\n") = true := by
  apply endsOne_concat_newline
  rcases renderLinkList_last items with h | h
  · rw [data_append', getLast?_append_some _ _ ')' h]
    simp
  · rw [data_append', getLast?_append_some _ _ '_' h]
    simp

theorem writeIndexes_endsOne (compounds : List Compound) :
    ∀ pr ∈ writeIndexes compounds, endsOneNewlineB pr.2 = true := by
  intro pr hpr
  unfold writeIndexes at hpr
  simp only [List.mem_cons, List.not_mem_nil, or_false] at hpr
  rcases hpr with h | h | h | h
  · rw [h]
    exact endsOne_append_keep _ _ (by decide) (by decide)
  · rw [h]
    exact header_list_endsOne _ _
  · rw [h]
    exact header_list_endsOne _ _
  · rw [h]
    exact header_list_endsOne _ _

theorem renderCompound_endsOne (compound : Compound) (detailRoot : Option Elem) :
    endsOneNewlineB (renderCompound compound detailRoot) = true := by
  cases detailRoot with
  | none =>
    simp only [renderCompound]
    exact endsOne_append_keep _ _ (by decide) (by decide)
  | some root =>
    simp only [renderCompound]
    cases hc : findChild root "compounddef" with
    | none =>
      exact endsOne_append_keep _ _ (by decide) (by decide)
    | some cd =>
      exact endsOne_concat_newline _ (pyStrip_getLast?_ne_newline _)

/-- C8: every file a run writes — each compound page, placeholder pages
included, and each of the four index files — has content ending with
exactly one trailing newline character. -/
theorem C8_trailing_newline (root : Elem) (details : String → Option Elem)
    (pr : String × String) (h : pr ∈ runFiles root details) :
    endsOneNewlineB pr.2 = true := by
  unfold runFiles at h
  rcases List.mem_append.mp h with h | h
  · unfold writeCompoundPages at h
    obtain ⟨c, hc, heq⟩ := List.mem_filterMap.mp h
    by_cases hk : renderableKinds.contains c.kind
    · rw [if_pos hk] at heq
      have heq' := Option.some.inj heq
      rw [← heq']
      exact renderCompound_endsOne _ _
    · rw [if_neg hk] at heq
      exact absurd heq (by simp)
  · exact writeIndexes_endsOne _ pr h

/-- C8 witness: the placeholder page written for `c1` in a run over the
concrete catalog with no detail records ends with exactly one newline. -/
theorem C8_trailing_newline_witness :
    ("c1.md", "# Alpha\n\n_Unable to locate XML for c1._\n") ∈ runFiles c8root noDetails
      ∧ endsOneNewlineB "# Alpha\n\n_Unable to locate XML for c1._\n" = true :=
  ⟨by decide,
   C8_trailing_newline c8root noDetails ("c1.md", "# Alpha\n\n_Unable to locate XML for c1._\n")
     (by decide)⟩

theorem insertByName_mem (l : List Compound) (c x : Compound)
    (hx : x ∈ insertByName l c) : x = c ∨ x ∈ l := by
  induction l with
  | nil => simpa [insertByName] using hx
  | cons d rest ih =>
    by_cases hle : d.name ≤ c.name
    · simp only [insertByName, if_pos hle] at hx
      rcases List.mem_cons.mp hx with rfl | hx'
      · right; exact List.mem_cons_self _ _
      · rcases ih hx' with rfl | hmem
        · left; rfl
        · right; exact List.mem_cons_of_mem _ hmem
    · simp only [insertByName, if_neg hle] at hx
      rcases List.mem_cons.mp hx with rfl | hx'
      · left; rfl
      · right; exact hx'

theorem insertByName_pairwise (l : List Compound) (c : Compound)
    (h : List.Pairwise (fun a b => a.name ≤ b.name) l) :
    List.Pairwise (fun a b => a.name ≤ b.name) (insertByName l c) := by
  induction l with
  | nil => simp [insertByName]
  | cons d rest ih =>
    rw [List.pairwise_cons] at h
    obtain ⟨hd, hrest⟩ := h
    by_cases hle : d.name ≤ c.name
    · simp only [insertByName, if_pos hle]
      rw [List.pairwise_cons]
      refine ⟨?_, ih hrest⟩
      intro y hy
      rcases insertByName_mem rest c y hy with rfl | hy'
      · exact hle
      · exact hd y hy'
    · simp only [insertByName, if_neg hle]
      rw [List.pairwise_cons]
      refine ⟨?_, List.pairwise_cons.mpr ⟨hd, hrest⟩⟩
      intro y hy
      rcases List.mem_cons.mp hy with rfl | hy'
      · exact le_of_not_le hle
      · exact le_trans (le_of_not_le hle) (hd y hy')

theorem foldl_insertByName_pairwise (l : List Compound) :
    ∀ acc, List.Pairwise (fun a b => a.name ≤ b.name) acc →
      List.Pairwise (fun a b => a.name ≤ b.name) (l.foldl insertByName acc) := by
  induction l with
  | nil => intro acc h; simpa using h
  | cons c rest ih =>
    intro acc h
    simp only [List.foldl_cons]
    exact ih _ (insertByName_pairwise acc c h)

theorem sortByName_pairwise (l : List Compound) :
    List.Pairwise (fun a b => a.name ≤ b.name) (sortByName l) :=
  foldl_insertByName_pairwise l [] (by simp)

theorem writeCompoundPages_fst (l : List Compound) (details : String → Option Elem) :
    (writeCompoundPages l details).map Prod.fst
      = (l.filter (fun c => renderableKinds.contains c.kind)).map
          (fun c => c.refid ++ ".md") := by
  unfold writeCompoundPages
  induction l with
  | nil => rfl
  | cons c rest ih =>
    rw [List.filterMap_cons, List.filter_cons]
    by_cases hk : renderableKinds.contains c.kind = true
    · rw [if_pos hk, if_pos hk]
      simp only [List.map_cons]
      rw [ih]
    · rw [if_neg hk, if_neg hk]
      exact ih

/-- C9: the run is a deterministic function of its input (two runs over equal
inputs produce identical effect lists), compound pages are written in
catalog discovery order, and each index partition is sorted by display
name. -/
theorem C9_determinism_and_order (root : Elem) (details : String → Option Elem) :
    (∀ (root2 : Elem) (details2 : String → Option Elem),
        root = root2 → details = details2 →
        Run (some root) details = Run (some root2) details2)
      ∧ (writeCompoundPages (loadIndex root) details).map Prod.fst
          = ((loadIndex root).filter (fun c => renderableKinds.contains c.kind)).map
              (fun c => c.refid ++ ".md")
      ∧ List.Pairwise (fun a b => a.name ≤ b.name)
          (sortByName ((loadIndex root).filter (fun c => c.kind = "namespace")))
      ∧ List.Pairwise (fun a b => a.name ≤ b.name)
          (sortByName ((loadIndex root).filter (fun c => typeKinds.contains c.kind)))
      ∧ List.Pairwise (fun a b => a.name ≤ b.name)
          (sortByName ((loadIndex root).filter (fun c => c.kind = "file"))) := by
  refine ⟨?_, writeCompoundPages_fst _ _, sortByName_pairwise _, sortByName_pairwise _,
    sortByName_pairwise _⟩
  intro root2 details2 h1 h2
  rw [h1, h2]

/-- C9 witness: determinism on the concrete catalog. -/
theorem C9_determinism_witness :
    Run (some c8root) noDetails = Run (some c8root) noDetails :=
  (C9_determinism_and_order c8root noDetails).1 c8root noDetails rfl rfl

/-- C4: a renderable compound whose detail record is absent produces the
minimal placeholder page (title plus unable-to-locate notice); that page is
among the run's writes, every other renderable compound's page is still
written, and the run completes without raising. -/
theorem C4_missing_detail_placeholder (root : Elem) (details : String → Option Elem)
    (c : Compound) (hc : c ∈ loadIndex root)
    (hk : renderableKinds.contains c.kind = true)
    (hmiss : details c.refid = none) :
    renderCompound c (details c.refid)
        = "# " ++ c.name ++ "\n\n_Unable to locate XML for " ++ c.refid ++ "._\n"
      ∧ (c.refid ++ ".md",
         "# " ++ c.name ++ "\n\n_Unable to locate XML for " ++ c.refid ++ "._\n")
          ∈ runFiles root details
      ∧ (∀ c' ∈ loadIndex root, renderableKinds.contains c'.kind = true →
          (c'.refid ++ ".md", renderCompound c' (details c'.refid)) ∈ runFiles root details)
      ∧ Run (some root) details
          = Except.ok (Effect.prepareOutput ::
              (runFiles root details).map (fun pr => Effect.write pr.1 pr.2)) := by
  have hplace : renderCompound c (details c.refid)
      = "# " ++ c.name ++ "\n\n_Unable to locate XML for " ++ c.refid ++ "._\n" := by
    rw [hmiss]
    rfl
  have hmem : ∀ c' ∈ loadIndex root, renderableKinds.contains c'.kind = true →
      (c'.refid ++ ".md", renderCompound c' (details c'.refid)) ∈ runFiles root details := by
    intro c' hc' hk'
    unfold runFiles
    apply List.mem_append_left
    unfold writeCompoundPages
    exact List.mem_filterMap.mpr ⟨c', hc', by rw [if_pos hk']⟩
  refine ⟨hplace, ?_, hmem, rfl⟩
  have h := hmem c hc hk
  rwa [hplace] at h

/-- C4 witness: the placeholder membership at the concrete catalog where no
detail record exists. -/
theorem C4_missing_detail_placeholder_witness :
    ("c1.md",
      "# " ++ "Alpha" ++ "\n\n_Unable to locate XML for " ++ "c1" ++ "._\n")
      ∈ runFiles c8root noDetails :=
  (C4_missing_detail_placeholder c8root noDetails (Compound.mk "c1" "class" "Alpha")
    (by decide) (by decide) rfl).2.1

theorem loadIndexAux_eq (l : List Elem) :
    loadIndexAux l
      = l.filterMap (fun el =>
          if getAttr el "refid" "" = "" then none
          else some { refid := getAttr el "refid" "", kind := getAttr el "kind" "",
                      name := compoundName el (getAttr el "refid" "") }) := by
  induction l with
  | nil => rfl
  | cons el rest ih =>
    simp only [loadIndexAux, List.filterMap_cons]
    by_cases hr : getAttr el "refid" "" = ""
    · simp [hr, ih]
    · simp [hr, ih]

theorem loadIndex_refid_ne (root : Elem) : ∀ c ∈ loadIndex root, c.refid ≠ "" := by
  intro c hc
  unfold loadIndex at hc
  rw [loadIndexAux_eq] at hc
  obtain ⟨el, _, heq⟩ := List.mem_filterMap.mp hc
  by_cases hr : getAttr el "refid" "" = ""
  · rw [if_pos hr] at heq
    exact absurd heq (by simp)
  · rw [if_neg hr] at heq
    have h2 := Option.some.inj heq
    rw [← h2]
    exact hr

/-- C10: catalog load skips index entries whose refid is empty — every loaded
compound has a non-empty identity key and every written file is either one
of the four index files or named `refid.md` for a loaded compound (so a
skipped entry never yields an output file) — and an entry whose name
element is absent or has falsy text gets its refid as its display name. -/
theorem C10_load_index (root : Elem) (details : String → Option Elem) :
    loadIndex root
        = (root.children.filter (fun c => c.tag = "compound")).filterMap (fun el =>
            if getAttr el "refid" "" = "" then none
            else some { refid := getAttr el "refid" "", kind := getAttr el "kind" "",
                        name := compoundName el (getAttr el "refid" "") })
      ∧ (∀ c ∈ loadIndex root, c.refid ≠ "")
      ∧ (∀ el ∈ root.children.filter (fun c => c.tag = "compound"),
          getAttr el "refid" "" ≠ "" →
          (∀ ne, findChild el "name" = some ne → truthyOpt ne.text = false) →
          ({ refid := getAttr el "refid" "", kind := getAttr el "kind" "",
             name := getAttr el "refid" "" } : Compound) ∈ loadIndex root)
      ∧ (∀ pr ∈ runFiles root details,
          pr.1 = "index.md" ∨ pr.1 = "namespaces.md" ∨ pr.1 = "types.md"
            ∨ pr.1 = "files.md"
            ∨ ∃ c ∈ loadIndex root, c.refid ≠ "" ∧ pr.1 = c.refid ++ ".md") := by
  refine ⟨by unfold loadIndex; exact loadIndexAux_eq _, loadIndex_refid_ne root, ?_, ?_⟩
  · intro el hel hr hname
    have hcn : compoundName el (getAttr el "refid" "") = getAttr el "refid" "" := by
      unfold compoundName
      cases hf : findChild el "name" with
      | none => rfl
      | some ne => simp [hname ne hf]
    unfold loadIndex
    rw [loadIndexAux_eq]
    apply List.mem_filterMap.mpr
    refine ⟨el, hel, ?_⟩
    rw [if_neg hr, hcn]
  · intro pr hpr
    unfold runFiles at hpr
    rcases List.mem_append.mp hpr with h | h
    · unfold writeCompoundPages at h
      obtain ⟨c, hc, heq⟩ := List.mem_filterMap.mp h
      by_cases hk : renderableKinds.contains c.kind = true
      · rw [if_pos hk] at heq
        have h2 := Option.some.inj heq
        right; right; right; right
        exact ⟨c, hc, loadIndex_refid_ne root c hc, by rw [← h2]⟩
      · rw [if_neg hk] at heq
        exact absurd heq (by simp)
    · unfold writeIndexes at h
      simp only [List.mem_cons, List.not_mem_nil, or_false] at h
      rcases h with h | h | h | h
      · left; rw [h]
      · right; left; rw [h]
      · right; right; left; rw [h]
      · right; right; right; left; rw [h]

/-- C10 witness: the entry `c2x`, whose name element is absent, is loaded with
its refid as its display name. -/
theorem C10_load_index_witness :
    (Compound.mk "c2x" "struct" "c2x") ∈ loadIndex c8root :=
  (C10_load_index c8root noDetails).2.2.1 c10entryNameless
    (by simp [c8root, c8entryAlpha, c8entryWidgets, c10entryEmptyRefid, c10entryNameless,
      Elem.children, Elem.tag, List.filter])
    (by decide)
    (by
      intro ne h
      simp [c10entryNameless, findChild, Elem.children, List.find?] at h)

/-- C1 witness: the ordering equation at a concrete inline node. -/
theorem C1_render_inline_order_witness :
    renderInline c6para
      = optStr c6para.text
          ++ strConcat (c6para.children.map (fun c => renderedOf c ++ optStr c.tailText)) :=
  C1_render_inline_order c6para

/-- C3 witness: the missing-index abort at a concrete detail map. -/
theorem C3_missing_index_aborts_witness :
    Run none noDetails = Except.error "Missing Doxygen index" :=
  (C3_missing_index_aborts noDetails).1
